import Mathlib

/-!
Shallow embedding of `src/lib/business-logic-central.service.js` from
ng-business-logic-central: a dispatch registry mapping event names to
ordered lists of instruction callbacks, with `addInstructionToEvent`
(registration) and `doEvent` (firing with short-circuit at the first
instruction returning true).  The file also embeds the standalone legacy
compiled variant `executeInstructionsForEvent` from the same source file.

Modelling choices, all read off the source:
* Instructions are callbacks supplied by the caller; the registry treats
  them as black boxes.  We model an instruction as an identity drawn from
  an arbitrary type `Ins` together with a behaviour environment
  `beh : Ins → Par → Bool` giving the boolean each instruction returns on
  given parameters (`BusinessLogicInstruction = (args?) => boolean`).
* `eventParameters` values are drawn from an arbitrary type `Par`
  (the source forwards them verbatim, never inspecting them).
* The private object `_businessLogicEvents` is an association list
  `List (String × Registration Ins)` in key-insertion order, mirroring a
  plain JS object: `hasOwnProperty` is key membership, property read is
  first-match lookup, `Object.defineProperty` on a fresh key appends.
* Firing is instrumented with a ghost `trace` recording, in order, each
  instruction invocation together with the argument value it received;
  the JS performs these calls for effect, and the trace is the record of
  exactly which calls happen and with what argument.
* `doEvent` mutates nothing, but we still thread the registry through it
  (field `registry` of the outcome) so that the frame property is a
  statement, not a typing accident.
* The legacy compiled variant can throw a TypeError (reading
  `.eventInstructions` of `undefined`), so it returns an `Option`:
  `none` models the thrown exception.
-/

namespace BLC

variable {Ins Par : Type}

/-- Shape of a stored event registration: the value installed by
`_initializeEvent` (source lines 279-288), `eventName` plus the ordered
`eventInstructions` list.  (The `eventParameters?` field of the
`BusinessLogicEvent` interface is never stored in the registry.) -/
structure Registration (Ins : Type) where
  eventName : String
  eventInstructions : List Ins
  deriving Repr, DecidableEq

/-- An event descriptor as passed to `doEvent` (source line 225): the
service reads only `event.eventName` and `event.eventParameters` from it. -/
structure BusinessLogicEvent (Par : Type) where
  eventName : String
  eventParameters : Par
  deriving Repr, DecidableEq

/-- The private registry object `this._businessLogicEvents`: a plain JS
object used as a map from event-name strings to registrations, modelled
as an association list in key-insertion order. -/
abbrev Registry (Ins : Type) := List (String × Registration Ins)

/-- The constructor (source lines 191-193): `this._businessLogicEvents = {};`. -/
def emptyRegistry : Registry Ins := []

/-- Property read `this._businessLogicEvents[k]`: first entry whose key
equals `k`, or `none` when the key is absent (JS `undefined`). -/
def getProp : Registry Ins → String → Option (Registration Ins)
  | [], _ => none
  | p :: rest, k => if p.1 == k then some p.2 else getProp rest k

/-- Key test `this._businessLogicEvents.hasOwnProperty(k)`.  On this plain
object with only string keys it holds exactly when the property read is
defined. -/
def hasOwnProperty (m : Registry Ins) (k : String) : Bool :=
  (getProp m k).isSome

/-- Private `_initializeEvent(eventName)` (source lines 273-289): bail out
if the key already exists, otherwise `Object.defineProperty` installs a
fresh enumerable key holding `{ eventName: eventName, eventInstructions: [] }`;
on a plain object that is ordinary key insertion, appended last in
insertion order. -/
def _initializeEvent (m : Registry Ins) (eventName : String) : Registry Ins :=
  if hasOwnProperty m eventName then m
  else m ++ [(eventName, ⟨eventName, []⟩)]

/-- The statement `this._businessLogicEvents[eventName].eventInstructions.push(instruction)`
(source line 210): mutate the registration stored under `eventName` by
appending `instruction` to the end of its list.  (In `addInstructionToEvent`
the key is always present when this line runs.) -/
def pushInstruction : Registry Ins → String → Ins → Registry Ins
  | [], _, _ => []
  | p :: rest, k, i =>
    (if p.1 == k then (p.1, ⟨p.2.eventName, p.2.eventInstructions ++ [i]⟩) else p)
      :: pushInstruction rest k i

/-- Public `addInstructionToEvent(instruction, eventName)` (source lines
198-215): initialize the event entry when the key is absent, then push the
instruction onto that entry's list.  Always succeeds (void return, no
error path in the source). -/
def addInstructionToEvent (m : Registry Ins) (instruction : Ins) (eventName : String) :
    Registry Ins :=
  let m1 := if !(hasOwnProperty m eventName) then _initializeEvent m eventName else m
  pushInstruction m1 eventName instruction

/-- The `for (const instruction of instructions)` loop of `doEvent`
(source lines 252-262): invoke each instruction in list order with the
firing's parameters, recording the invocation `(instruction, argument)`,
and stop as soon as one returns true.  The returned list is the exact
sequence of invocations the loop performs. -/
def runInstructions (beh : Ins → Par → Bool) (params : Par) : List Ins → List (Ins × Par)
  | [] => []
  | i :: rest =>
    let outcome := beh i params
    (i, params) :: (if outcome then [] else runInstructions beh params rest)

/-- Result of one `doEvent` firing: the registry afterwards (the method
never assigns to `this._businessLogicEvents`, so every branch returns it
unchanged), the boolean result, and the ghost trace of instruction
invocations performed. -/
structure DoEventOutcome (Ins Par : Type) where
  registry : Registry Ins
  result : Bool
  trace : List (Ins × Par)
  deriving Repr, DecidableEq

/-- Public `doEvent(event)` (source lines 225-266).  The source first
tests `hasOwnProperty(event.eventName)` and afterwards reads the property
at that same key (lines 233, 241, 251); since on this object the test
succeeds exactly when the read is defined, the two are fused into one
`getProp` match.  Absent key: return false (line 237).  Empty instruction
list: return false (line 246).  Otherwise run the loop and return true
(line 265) whatever the instructions returned. -/
def doEvent (beh : Ins → Par → Bool) (m : Registry Ins) (event : BusinessLogicEvent Par) :
    DoEventOutcome Ins Par :=
  match getProp m event.eventName with
  | none => ⟨m, false, []⟩
  | some reg =>
    if reg.eventInstructions.length == 0 then ⟨m, false, []⟩
    else ⟨m, true, runInstructions beh event.eventParameters reg.eventInstructions⟩

/-- Default JS stringification of a plain object.  The legacy compiled
variant's line 87 reads `this._businessLogicEvents[event]`, indexing by
the whole event object; JS coerces the key to a string, and a plain
object without a custom `toString` always coerces to this constant. -/
def objectDefaultKey : String := "[object Object]"

/-- Legacy compiled `executeInstructionsForEvent(event)` (source lines
75-108 of the compiled half of the file).  It differs from `doEvent` in
one place: the empty-list guard reads `this._businessLogicEvents[event]`
(keyed by the object's string coercion, `objectDefaultKey`) instead of
`this._businessLogicEvents[event.eventName]`.  When no entry exists under
that coerced key the read yields `undefined` and accessing
`.eventInstructions` throws a TypeError, modelled as `none`.  The loop
itself (line 95) correctly indexes by `event.eventName`, which is present
whenever the initial `hasOwnProperty` guard passed. -/
def executeInstructionsForEvent (beh : Ins → Par → Bool) (m : Registry Ins)
    (event : BusinessLogicEvent Par) : Option (DoEventOutcome Ins Par) :=
  if !(hasOwnProperty m event.eventName) then some ⟨m, false, []⟩
  else
    match getProp m objectDefaultKey with
    | none => none
    | some regObj =>
      if regObj.eventInstructions.length == 0 then some ⟨m, false, []⟩
      else
        match getProp m event.eventName with
        | none => none
        | some reg => some ⟨m, true, runInstructions beh event.eventParameters reg.eventInstructions⟩

/-- Registry well-formedness (the implicit invariant of claim C9): every
stored registration's `eventName` field equals the key it is stored
under.  (That every registration's `eventInstructions` is a defined list
is enforced by the `Registration` type itself.) -/
def WellFormedRegistry (m : Registry Ins) : Prop :=
  ∀ p ∈ m, (p : String × Registration Ins).2.eventName = p.1

/-! ### Helper lemmas -/

/-- Key membership is definedness of the property read. -/
lemma hasOwnProperty_eq_isSome (m : Registry Ins) (k : String) :
    hasOwnProperty m k = (getProp m k).isSome := rfl

/-- Property read after the push statement, at the pushed key: the stored
registration's list gains the instruction at its end. -/
lemma getProp_pushInstruction_self (m : Registry Ins) (k : String) (i : Ins) :
    getProp (pushInstruction m k i) k =
      (getProp m k).map (fun r => ⟨r.eventName, r.eventInstructions ++ [i]⟩) := by
  induction m with
  | nil => rfl
  | cons p rest ih =>
    by_cases h : p.1 == k
    · simp [pushInstruction, getProp, h]
    · simp [pushInstruction, getProp, h, ih]

/-- Property read after the push statement, at any other key: unchanged. -/
lemma getProp_pushInstruction_other (m : Registry Ins) (k k2 : String) (i : Ins)
    (hne : k2 ≠ k) :
    getProp (pushInstruction m k i) k2 = getProp m k2 := by
  induction m with
  | nil => rfl
  | cons p rest ih =>
    by_cases h : p.1 == k
    · have hp : p.1 = k := by simpa using h
      have h2 : (p.1 == k2) = false := by
        rw [hp]
        exact beq_eq_false_iff_ne.mpr (fun hx => hne hx.symm)
      simp [pushInstruction, getProp, h, h2, ih]
    · simp [pushInstruction, getProp, h, ih]

/-- Property read over appended entries: the tail is consulted only when
the key is absent from the front. -/
lemma getProp_append (m m2 : Registry Ins) (k : String) :
    getProp (m ++ m2) k =
      match getProp m k with
      | some r => some r
      | none => getProp m2 k := by
  induction m with
  | nil => rfl
  | cons p rest ih =>
    by_cases h : p.1 == k
    · simp [getProp, h]
    · simp [getProp, h, ih]

/-- The loop's invocation sequence is exactly the list prefix ending at
the first instruction whose behaviour returns true (the whole list when
none does), each paired with the firing's parameters. -/
lemma runInstructions_eq_take (beh : Ins → Par → Bool) (params : Par) (l : List Ins) :
    runInstructions beh params l =
      (l.take (l.findIdx (fun i => beh i params) + 1)).map (fun i => (i, params)) := by
  induction l with
  | nil => rfl
  | cons a t ih =>
    cases h : beh a params with
    | true => simp [runInstructions, h, List.findIdx_cons]
    | false => simp [runInstructions, h, List.findIdx_cons, ih]

/-- Every recorded invocation carries the firing's parameter value. -/
lemma snd_eq_of_mem_runInstructions (beh : Ins → Par → Bool) (params : Par)
    (l : List Ins) (pr : Ins × Par) (h : pr ∈ runInstructions beh params l) :
    pr.2 = params := by
  rw [runInstructions_eq_take] at h
  obtain ⟨i, _, hi⟩ := List.mem_map.mp h
  subst hi
  rfl

/-- No branch of `doEvent` assigns to the registry. -/
lemma doEvent_registry_eq (beh : Ins → Par → Bool) (m : Registry Ins)
    (ev : BusinessLogicEvent Par) : (doEvent beh m ev).registry = m := by
  unfold doEvent
  cases getProp m ev.eventName with
  | none => rfl
  | some reg => by_cases h : reg.eventInstructions.length == 0 <;> simp [h]

/-- Nonempty lists have a length-zero test that is false. -/
lemma length_beq_zero_eq_false {l : List Ins} (h : l ≠ []) :
    (l.length == 0) = false := by
  simp only [beq_eq_false_iff_ne, ne_eq, List.length_eq_zero]
  exact h

/-- Evaluation of `doEvent` at an unregistered name. -/
lemma doEvent_eval_none (beh : Ins → Par → Bool) (m : Registry Ins)
    (ev : BusinessLogicEvent Par) (hg : getProp m ev.eventName = none) :
    doEvent beh m ev = ⟨m, false, []⟩ := by
  simp [doEvent, hg]

/-- Evaluation of `doEvent` at a registered name with an empty list. -/
lemma doEvent_eval_empty (beh : Ins → Par → Bool) (m : Registry Ins)
    (ev : BusinessLogicEvent Par) (r : Registration Ins)
    (hg : getProp m ev.eventName = some r) (he : r.eventInstructions = []) :
    doEvent beh m ev = ⟨m, false, []⟩ := by
  simp [doEvent, hg, he]

/-- Evaluation of `doEvent` at a registered name with a non-empty list. -/
lemma doEvent_eval_nonempty (beh : Ins → Par → Bool) (m : Registry Ins)
    (ev : BusinessLogicEvent Par) (r : Registration Ins)
    (hg : getProp m ev.eventName = some r) (hne : r.eventInstructions ≠ []) :
    doEvent beh m ev =
      ⟨m, true, runInstructions beh ev.eventParameters r.eventInstructions⟩ := by
  simp [doEvent, hg, length_beq_zero_eq_false hne]

/-- Evaluation of the legacy variant at an unregistered name: its first
guard (line 80 of the compiled half) fires before the stray-keyed read. -/
lemma legacy_eval_unregistered (beh : Ins → Par → Bool) (m : Registry Ins)
    (ev : BusinessLogicEvent Par) (h : hasOwnProperty m ev.eventName = false) :
    executeInstructionsForEvent beh m ev = some ⟨m, false, []⟩ := by
  simp [executeInstructionsForEvent, h]

/-- Evaluation of the legacy variant at a registered name when the
registry holds no `"[object Object]"` entry: reading `.eventInstructions`
of `undefined` throws. -/
lemma legacy_eval_noObjKey (beh : Ins → Par → Bool) (m : Registry Ins)
    (ev : BusinessLogicEvent Par) (hk : hasOwnProperty m ev.eventName = true)
    (h0 : getProp m objectDefaultKey = none) :
    executeInstructionsForEvent beh m ev = none := by
  simp [executeInstructionsForEvent, hk, h0]

/-- Evaluation of the legacy variant at a registered name when the
`"[object Object]"` entry exists with an empty list: the stray-keyed
empty-list guard returns false early, whatever the fired name's list. -/
lemma legacy_eval_objKeyEmpty (beh : Ins → Par → Bool) (m : Registry Ins)
    (ev : BusinessLogicEvent Par) (r0 : Registration Ins)
    (hk : hasOwnProperty m ev.eventName = true)
    (h0 : getProp m objectDefaultKey = some r0)
    (he : r0.eventInstructions = []) :
    executeInstructionsForEvent beh m ev = some ⟨m, false, []⟩ := by
  simp [executeInstructionsForEvent, hk, h0, he]

/-- Evaluation of the legacy variant at a registered name when the
`"[object Object]"` entry exists with a non-empty list: the guard passes
and the loop runs over the correctly-keyed list of the fired name,
returning true — even when that list is empty (zero iterations). -/
lemma legacy_eval_objKeyNonempty (beh : Ins → Par → Bool) (m : Registry Ins)
    (ev : BusinessLogicEvent Par) (r0 r : Registration Ins)
    (hk : hasOwnProperty m ev.eventName = true)
    (h0 : getProp m objectDefaultKey = some r0)
    (hne : r0.eventInstructions ≠ [])
    (hr : getProp m ev.eventName = some r) :
    executeInstructionsForEvent beh m ev =
      some ⟨m, true, runInstructions beh ev.eventParameters r.eventInstructions⟩ := by
  simp [executeInstructionsForEvent, hk, h0, length_beq_zero_eq_false hne, hr]

/-! ### Concrete instances, used by the witnesses below -/

/-- Behaviour environment for demonstrations: instruction `1` returns
true, every other instruction returns false. -/
def behDemo : Nat → Nat → Bool := fun i _ => i == 1

/-- Behaviour environment in which every instruction returns false. -/
def behAllFalse : Nat → Nat → Bool := fun _ _ => false

/-- Behaviour environment in which every instruction returns true. -/
def behAllTrue : Nat → Nat → Bool := fun _ _ => true

/-- A registry holding one event `e` with instructions `[0, 1, 2]`. -/
def regDemo : Registry Nat := [("e", ⟨"e", [0, 1, 2]⟩)]

/-- A registry that, besides event `e`, also holds an entry under the
object-coercion key consulted by the legacy variant. -/
def regDemoObj : Registry Nat :=
  [("[object Object]", ⟨"[object Object]", [9]⟩), ("e", ⟨"e", [0, 1, 2]⟩)]

/-- A registry holding one event `z` with an empty instruction list. -/
def regDemoEmpty : Registry Nat := [("z", ⟨"z", []⟩)]

/-- A registry whose object-coercion entry has a non-empty list while the
registered event `z` has an empty one: the emptiness of the two lists
disagrees. -/
def regDemoMismatch : Registry Nat :=
  [("[object Object]", ⟨"[object Object]", [9]⟩), ("z", ⟨"z", []⟩)]

/-- A fired event: name `e`, parameter value `5`. -/
def evDemo : BusinessLogicEvent Nat := ⟨"e", 5⟩

/-! ### Claims -/

/-- C2: for every event name with no Event Registration and every
parameters value, `doEvent` returns false, invokes no instruction
(empty trace), and leaves the registry as it was. -/
theorem doEvent_unregistered_returns_false (beh : Ins → Par → Bool) (m : Registry Ins)
    (ev : BusinessLogicEvent Par) (h : hasOwnProperty m ev.eventName = false) :
    doEvent beh m ev = ⟨m, false, []⟩ := by
  cases hg : getProp m ev.eventName with
  | none => simp [doEvent, hg]
  | some r => rw [hasOwnProperty, hg] at h; simp at h

/-- Witness for C2: firing `x` on the empty registry. -/
theorem doEvent_unregistered_returns_false_witness :
    doEvent behDemo (emptyRegistry : Registry Nat) ⟨"x", 0⟩ =
      ⟨emptyRegistry, false, []⟩ :=
  doEvent_unregistered_returns_false behDemo emptyRegistry ⟨"x", 0⟩ (by decide)

/-- C3: when an Event Registration exists for the fired name but its
instruction list is empty, `doEvent` returns false and invokes no
instruction. -/
theorem doEvent_empty_instructions_returns_false (beh : Ins → Par → Bool)
    (m : Registry Ins) (ev : BusinessLogicEvent Par) (reg : Registration Ins)
    (hreg : getProp m ev.eventName = some reg)
    (hempty : reg.eventInstructions = []) :
    doEvent beh m ev = ⟨m, false, []⟩ := by
  simp [doEvent, hreg, hempty]

/-- Witness for C3: firing `z`, registered with an empty list. -/
theorem doEvent_empty_instructions_returns_false_witness :
    doEvent behDemo regDemoEmpty ⟨"z", 7⟩ = ⟨regDemoEmpty, false, []⟩ :=
  doEvent_empty_instructions_returns_false behDemo regDemoEmpty ⟨"z", 7⟩
    ⟨"z", []⟩ (by decide) rfl

/-- C4: when an Event Registration exists for the fired name with a
non-empty instruction list, `doEvent` returns true — for every behaviour
environment, so in particular whether some instruction returns true
(early stop) or all return false. -/
theorem doEvent_nonempty_returns_true (beh : Ins → Par → Bool) (m : Registry Ins)
    (ev : BusinessLogicEvent Par) (reg : Registration Ins)
    (hreg : getProp m ev.eventName = some reg)
    (hne : reg.eventInstructions ≠ []) :
    (doEvent beh m ev).result = true := by
  simp [doEvent, hreg, length_beq_zero_eq_false hne]

/-- Witness for C4: firing `e` under the all-false behaviour still
returns true. -/
theorem doEvent_nonempty_returns_true_witness :
    (doEvent behAllFalse regDemo evDemo).result = true :=
  doEvent_nonempty_returns_true behAllFalse regDemo evDemo
    ⟨"e", [0, 1, 2]⟩ (by decide) (by decide)

/-- C6: every instruction invoked during a firing receives exactly the
parameters value supplied to that firing (every trace entry's second
component is `ev.eventParameters`). -/
theorem doEvent_forwards_parameters (beh : Ins → Par → Bool) (m : Registry Ins)
    (ev : BusinessLogicEvent Par) (pr : Ins × Par)
    (hmem : pr ∈ (doEvent beh m ev).trace) :
    pr.2 = ev.eventParameters := by
  cases hg : getProp m ev.eventName with
  | none => simp [doEvent, hg] at hmem
  | some reg =>
    by_cases hl : reg.eventInstructions.length == 0
    · simp [doEvent, hg, hl] at hmem
    · rw [doEvent] at hmem
      simp only [hg, hl, if_neg] at hmem
      exact snd_eq_of_mem_runInstructions beh ev.eventParameters
        reg.eventInstructions pr (by simpa using hmem)

/-- Witness for C6: the second invocation of the demo firing received
parameter `5`. -/
theorem doEvent_forwards_parameters_witness :
    ((1, 5) : Nat × Nat).2 = evDemo.eventParameters :=
  doEvent_forwards_parameters behDemo regDemo evDemo (1, 5) (by decide)

/-- C8: `doEvent` never changes the registry: the mapping after the call
(the outcome's `registry` field) is exactly the mapping before, for every
behaviour environment. -/
theorem doEvent_preserves_registry (beh : Ins → Par → Bool) (m : Registry Ins)
    (ev : BusinessLogicEvent Par) : (doEvent beh m ev).registry = m :=
  doEvent_registry_eq beh m ev

/-- C1: when the fired name is registered with a non-empty instruction
list, the invocation sequence of the firing is exactly the prefix of the
list up to and including the first instruction whose behaviour returns
true on the firing's parameters — the entire list when none does
(`findIdx` is then the length, and `take (length + 1)` is the whole
list).  Trace equality gives registration order, exactly-once invocation
of each prefix entry, and that nothing after the first true-returning
instruction is invoked. -/
theorem doEvent_invokes_prefix_to_first_true (beh : Ins → Par → Bool)
    (m : Registry Ins) (ev : BusinessLogicEvent Par) (reg : Registration Ins)
    (hreg : getProp m ev.eventName = some reg)
    (hne : reg.eventInstructions ≠ []) :
    (doEvent beh m ev).trace =
      (reg.eventInstructions.take
          (reg.eventInstructions.findIdx (fun i => beh i ev.eventParameters) + 1)).map
        (fun i => (i, ev.eventParameters)) := by
  simp [doEvent, hreg, length_beq_zero_eq_false hne, runInstructions_eq_take]

/-- Witness for C1: firing `e` with instructions `[0, 1, 2]` where only
instruction `1` returns true invokes `0` then `1` and never `2`. -/
theorem doEvent_invokes_prefix_to_first_true_witness :
    (doEvent behDemo regDemo evDemo).trace =
      (((⟨"e", [0, 1, 2]⟩ : Registration Nat).eventInstructions.take
          ((⟨"e", [0, 1, 2]⟩ : Registration Nat).eventInstructions.findIdx
            (fun i => behDemo i evDemo.eventParameters) + 1)).map
        (fun i => (i, evDemo.eventParameters))) :=
  doEvent_invokes_prefix_to_first_true behDemo regDemo evDemo
    ⟨"e", [0, 1, 2]⟩ (by decide) (by decide)

/-- C5: `addInstructionToEvent` always succeeds (it is a total function
here, mirroring the void return and absence of any error path in the
source, whatever duplicates are involved), and afterwards the
registration under the given name holds its previous instruction list —
empty when the name was not yet registered, in which case the entry is
created with `eventName` equal to the name — with the new instruction
appended at the end; earlier instructions stay in place and in order. -/
theorem addInstructionToEvent_appends (m : Registry Ins) (i : Ins) (n : String) :
    getProp (addInstructionToEvent m i n) n =
      some ⟨((getProp m n).map Registration.eventName).getD n,
            ((getProp m n).map Registration.eventInstructions).getD [] ++ [i]⟩ := by
  cases hg : getProp m n with
  | none =>
    have hk : hasOwnProperty m n = false := by simp [hasOwnProperty, hg]
    have hinit : _initializeEvent m n = m ++ [(n, ⟨n, []⟩)] := by
      simp [_initializeEvent, hk]
    simp only [addInstructionToEvent, hk, Bool.not_false, if_true, hinit]
    rw [getProp_pushInstruction_self, getProp_append, hg]
    simp [getProp]
  | some r =>
    have hk : hasOwnProperty m n = true := by simp [hasOwnProperty, hg]
    simp only [addInstructionToEvent, hk, Bool.not_true, Bool.false_eq_true,
      if_false]
    rw [getProp_pushInstruction_self, hg]
    simp

/-- C10: `addInstructionToEvent` for name `n` changes no registration
under any other key `k`: the property read at `k` is identical before and
after. -/
theorem addInstructionToEvent_frame (m : Registry Ins) (i : Ins) (n k : String)
    (hne : k ≠ n) :
    getProp (addInstructionToEvent m i n) k = getProp m k := by
  by_cases hk : hasOwnProperty m n
  · simp only [addInstructionToEvent, hk, Bool.not_true, Bool.false_eq_true,
      if_false]
    exact getProp_pushInstruction_other m n k i hne
  · have hk2 : hasOwnProperty m n = false := by simpa using hk
    have hinit : _initializeEvent m n = m ++ [(n, ⟨n, []⟩)] := by
      simp [_initializeEvent, hk2]
    simp only [addInstructionToEvent, hk2, Bool.not_false, if_true, hinit]
    rw [getProp_pushInstruction_other _ _ _ _ hne, getProp_append]
    cases hg : getProp m k with
    | none =>
      have : (n == k) = false := beq_eq_false_iff_ne.mpr (fun hx => hne hx.symm)
      simp [getProp, this]
    | some r => rfl

/-- Witness for C10: appending to `e` leaves the registration of `z`
untouched. -/
theorem addInstructionToEvent_frame_witness :
    getProp (addInstructionToEvent regDemoEmpty 4 "e") "z" =
      getProp regDemoEmpty "z" :=
  addInstructionToEvent_frame regDemoEmpty 4 "e" "z" (by decide)

/-- The push statement keeps every entry's key and `eventName` field. -/
lemma wellFormed_pushInstruction {m : Registry Ins} (k : String) (i : Ins)
    (h : WellFormedRegistry m) : WellFormedRegistry (pushInstruction m k i) := by
  induction m with
  | nil => intro q hq; cases hq
  | cons p rest ih =>
    intro q hq
    simp only [pushInstruction] at hq
    rcases List.mem_cons.mp hq with hq | hq
    · subst hq
      by_cases hk : p.1 == k
      · simpa [hk] using h p (List.mem_cons_self p rest)
      · simpa [hk] using h p (List.mem_cons_self p rest)
    · exact ih (fun r hr => h r (List.mem_cons_of_mem p hr)) q hq

/-- A freshly initialized entry stores its own key as `eventName`. -/
lemma wellFormed_initializeEvent {m : Registry Ins} (n : String)
    (h : WellFormedRegistry m) : WellFormedRegistry (_initializeEvent m n) := by
  unfold _initializeEvent
  by_cases hk : hasOwnProperty m n
  · simpa [hk] using h
  · have hk2 : hasOwnProperty m n = false := by simpa using hk
    intro q hq
    simp only [hk2, Bool.false_eq_true, if_false, List.mem_append,
      List.mem_singleton] at hq
    rcases hq with hq | hq
    · exact h q hq
    · subst hq; rfl

/-- C9: registry invariant — every stored registration's `eventName`
equals the key it is stored under (its `eventInstructions` being a
defined, possibly empty, list is enforced by the `Registration` type).
The invariant holds of the constructor's empty registry and is preserved
by every `addInstructionToEvent` and every `doEvent`. -/
theorem registry_wellFormed_invariant :
    WellFormedRegistry (emptyRegistry : Registry Ins) ∧
    (∀ (m : Registry Ins) (i : Ins) (n : String),
      WellFormedRegistry m → WellFormedRegistry (addInstructionToEvent m i n)) ∧
    (∀ (beh : Ins → Par → Bool) (m : Registry Ins) (ev : BusinessLogicEvent Par),
      WellFormedRegistry m → WellFormedRegistry (doEvent beh m ev).registry) := by
  refine ⟨?_, ?_, ?_⟩
  · intro p hp; cases hp
  · intro m i n hm
    by_cases hk : hasOwnProperty m n
    · simp only [addInstructionToEvent, hk, Bool.not_true, Bool.false_eq_true,
        if_false]
      exact wellFormed_pushInstruction n i hm
    · have hk2 : hasOwnProperty m n = false := by simpa using hk
      simp only [addInstructionToEvent, hk2, Bool.not_false, if_true]
      exact wellFormed_pushInstruction n i (wellFormed_initializeEvent n hm)
  · intro beh m ev hm
    rw [doEvent_registry_eq]
    exact hm

/-- Witness for C9: the invariant transfers to a concrete registration
on the empty registry. -/
theorem registry_wellFormed_invariant_witness :
    WellFormedRegistry (addInstructionToEvent (emptyRegistry : Registry Nat) 3 "e") :=
  (@registry_wellFormed_invariant Nat Nat).2.1 emptyRegistry 3 "e"
    (by intro p hp; cases hp)

/-- Counterexample to C7 as stated: on a registry holding event `e` with
one frame of instructions and no entry under the object-coercion key, the
primary `doEvent` succeeds (result true, instruction `0` invoked), while
the legacy compiled `executeInstructionsForEvent` throws a TypeError
(modelled `none`) at its empty-list guard, so it neither returns the same
boolean nor invokes the same instructions. -/
theorem executeInstructionsForEvent_throws_where_doEvent_succeeds :
    executeInstructionsForEvent behAllTrue regDemo evDemo = none ∧
    doEvent behAllTrue regDemo evDemo = ⟨regDemo, true, [(0, 5)]⟩ := by
  constructor <;> rfl

/-- C7 amended: full characterization of the legacy variant against
`doEvent`.  First, they agree (same boolean, same invocations in the same
order) exactly when the fired name is unregistered or the registry also
holds an entry under the object-coercion key `"[object Object]"` whose
instruction list is empty exactly when the fired name's list is empty.
Second, when the fired name is registered but no `"[object Object]"`
entry exists, the legacy variant throws a TypeError (`none`) where
`doEvent` returns normally.  Third, when such an entry exists but its
emptiness disagrees with the fired name's list, the legacy variant
returns normally with the negation of the boolean `doEvent` returns. -/
theorem executeInstructionsForEvent_vs_doEvent (beh : Ins → Par → Bool)
    (m : Registry Ins) (ev : BusinessLogicEvent Par) :
    (executeInstructionsForEvent beh m ev = some (doEvent beh m ev) ↔
      hasOwnProperty m ev.eventName = false ∨
      ∃ r0 r, getProp m objectDefaultKey = some r0 ∧
        getProp m ev.eventName = some r ∧
        (r0.eventInstructions = [] ↔ r.eventInstructions = [])) ∧
    (hasOwnProperty m ev.eventName = true →
      getProp m objectDefaultKey = none →
      executeInstructionsForEvent beh m ev = none) ∧
    (∀ r0 r, getProp m objectDefaultKey = some r0 →
      getProp m ev.eventName = some r →
      ((r0.eventInstructions = []) ↔ ¬(r.eventInstructions = [])) →
      ∃ out, executeInstructionsForEvent beh m ev = some out ∧
        out.result = !(doEvent beh m ev).result) := by
  refine ⟨⟨?_, ?_⟩, ?_, ?_⟩
  · intro hagree
    by_cases hk : hasOwnProperty m ev.eventName
    · right
      cases hg : getProp m ev.eventName with
      | none => rw [hasOwnProperty, hg] at hk; simp at hk
      | some r =>
        cases h0 : getProp m objectDefaultKey with
        | none =>
          rw [legacy_eval_noObjKey beh m ev hk h0] at hagree
          exact Option.noConfusion hagree
        | some r0 =>
          by_cases h0e : r0.eventInstructions = [] <;>
            by_cases hre : r.eventInstructions = []
          · exact ⟨r0, r, rfl, rfl, by simp [h0e, hre]⟩
          · rw [legacy_eval_objKeyEmpty beh m ev r0 hk h0 h0e,
              doEvent_eval_nonempty beh m ev r hg hre] at hagree
            simp at hagree
          · rw [legacy_eval_objKeyNonempty beh m ev r0 r hk h0 h0e hg,
              doEvent_eval_empty beh m ev r hg hre] at hagree
            simp at hagree
          · exact ⟨r0, r, rfl, rfl, by simp [h0e, hre]⟩
    · left; simpa using hk
  · intro h
    rcases h with h | ⟨r0, r, h0, hr, hiff⟩
    · have hg : getProp m ev.eventName = none := by
        cases hgg : getProp m ev.eventName with
        | none => rfl
        | some r => rw [hasOwnProperty, hgg] at h; simp at h
      rw [legacy_eval_unregistered beh m ev h, doEvent_eval_none beh m ev hg]
    · have hk : hasOwnProperty m ev.eventName = true := by
        simp [hasOwnProperty, hr]
      by_cases h0e : r0.eventInstructions = []
      · have hre : r.eventInstructions = [] := hiff.mp h0e
        rw [legacy_eval_objKeyEmpty beh m ev r0 hk h0 h0e,
          doEvent_eval_empty beh m ev r hr hre]
      · have hre : r.eventInstructions ≠ [] := fun hx => h0e (hiff.mpr hx)
        rw [legacy_eval_objKeyNonempty beh m ev r0 r hk h0 h0e hr,
          doEvent_eval_nonempty beh m ev r hr hre]
  · intro hk h0
    exact legacy_eval_noObjKey beh m ev hk h0
  · intro r0 r h0 hr hmis
    have hk : hasOwnProperty m ev.eventName = true := by
      simp [hasOwnProperty, hr]
    by_cases h0e : r0.eventInstructions = []
    · have hre : r.eventInstructions ≠ [] := hmis.mp h0e
      refine ⟨⟨m, false, []⟩,
        legacy_eval_objKeyEmpty beh m ev r0 hk h0 h0e, ?_⟩
      rw [doEvent_eval_nonempty beh m ev r hr hre]
      rfl
    · have hre : r.eventInstructions = [] := by
        by_contra hx
        exact h0e (hmis.mpr hx)
      refine ⟨⟨m, true, runInstructions beh ev.eventParameters r.eventInstructions⟩,
        legacy_eval_objKeyNonempty beh m ev r0 r hk h0 h0e hr, ?_⟩
      rw [doEvent_eval_empty beh m ev r hr hre]
      rfl

/-- Witness for C7's amended claim, exercising all three parts: with a
matching non-empty `"[object Object]"` entry the variants agree on firing
`e`; with no such entry the legacy variant throws on registered `e`; and
with a non-empty stray entry but empty registered list for `z`, the
legacy variant returns normally with the negated boolean. -/
theorem executeInstructionsForEvent_vs_doEvent_witness :
    (executeInstructionsForEvent behDemo regDemoObj evDemo =
      some (doEvent behDemo regDemoObj evDemo)) ∧
    (executeInstructionsForEvent behDemo regDemo evDemo = none) ∧
    (∃ out, executeInstructionsForEvent behDemo regDemoMismatch ⟨"z", 7⟩ =
        some out ∧
      out.result = !(doEvent behDemo regDemoMismatch ⟨"z", 7⟩).result) :=
  ⟨(executeInstructionsForEvent_vs_doEvent behDemo regDemoObj evDemo).1.mpr
      (Or.inr ⟨⟨"[object Object]", [9]⟩, ⟨"e", [0, 1, 2]⟩, by decide, by decide,
        by decide⟩),
    (executeInstructionsForEvent_vs_doEvent behDemo regDemo evDemo).2.1
      (by decide) (by decide),
    (executeInstructionsForEvent_vs_doEvent behDemo regDemoMismatch ⟨"z", 7⟩).2.2
      ⟨"[object Object]", [9]⟩ ⟨"z", []⟩ (by decide) (by decide) (by decide)⟩

end BLC
